import Mathlib

/-!
Verification of the SHADERS VJ tool (Three.js/WebGL fragment-shader mixer).

The definitions below are shallow embeddings of the JavaScript / GLSL code:
GLSL floats are modelled as exact rationals where the code is pure arithmetic
(point-in-quad test, HSL conversions, MIDI index mapping) and as real numbers
where the code uses transcendental functions (the kaleidoscope remap).
JavaScript arrays become Lean lists, typed pixel arrays become lists of
naturals, and the mutable class state of ShaderRenderer / ShaderManager /
VideoInputManager becomes explicit state-passing structures.
-/

/- ============================================================
   Geometry of the perspective quad (GLSL helpers crossSign / pointInQuad)

   GLSL source:
     float crossSign(vec2 a, vec2 b, vec2 p) {
         return (b.x - a.x) * (p.y - a.y) - (b.y - a.y) * (p.x - a.x);
     }
     bool pointInQuad(vec2 p, vec2 tl, vec2 tr, vec2 br, vec2 bl) {
         float d1 = crossSign(tl, tr, p);  ... float d4 = crossSign(bl, tl, p);
         bool hasNeg = (d1 < 0.0) || (d2 < 0.0) || (d3 < 0.0) || (d4 < 0.0);
         bool hasPos = (d1 > 0.0) || (d2 > 0.0) || (d3 > 0.0) || (d4 > 0.0);
         return !(hasNeg && hasPos);
     }
   ============================================================ -/

def crossSign (a b p : ℚ × ℚ) : ℚ :=
  (b.1 - a.1) * (p.2 - a.2) - (b.2 - a.2) * (p.1 - a.1)

def pointInQuad (p tl tr br bl : ℚ × ℚ) : Bool :=
  let d1 := crossSign tl tr p
  let d2 := crossSign tr br p
  let d3 := crossSign br bl p
  let d4 := crossSign bl tl p
  let hasNeg : Bool := decide (d1 < 0) || decide (d2 < 0) || decide (d3 < 0) || decide (d4 < 0)
  let hasPos : Bool := decide (0 < d1) || decide (0 < d2) || decide (0 < d3) || decide (0 < d4)
  !(hasNeg && hasPos)

/-- The corners tl, tr, br, bl are in counter-clockwise consistent winding
order and form a strictly convex quadrilateral: every consecutive corner
triple turns the same (positive) way. -/
def convexCCW (tl tr br bl : ℚ × ℚ) : Prop :=
  0 < crossSign tl tr br ∧ 0 < crossSign tr br bl ∧
  0 < crossSign br bl tl ∧ 0 < crossSign bl tl tr

/-- Spec-side notion of "p lies inside or on the boundary of the
quadrilateral": p is a convex combination of the four corners. -/
def inClosedQuad (p tl tr br bl : ℚ × ℚ) : Prop :=
  ∃ w1 w2 w3 w4 : ℚ,
    0 ≤ w1 ∧ 0 ≤ w2 ∧ 0 ≤ w3 ∧ 0 ≤ w4 ∧ w1 + w2 + w3 + w4 = 1 ∧
    p.1 = w1 * tl.1 + w2 * tr.1 + w3 * br.1 + w4 * bl.1 ∧
    p.2 = w1 * tl.2 + w2 * tr.2 + w3 * br.2 + w4 * bl.2

/- ============================================================
   ShaderRenderer mask state: saveToHistory / undoMask / clearMask /
   invertMask / drawOnMask.  The 2d-canvas ImageData pixel buffer is a
   flat list of bytes (RGBA, four naturals per pixel); maskCtx models
   whether the 2d context exists (the methods return early without it).
   ============================================================ -/

structure RendererMask where
  maskCtx : Bool
  mask : List ℕ
  maskHistory : List (List ℕ)
deriving DecidableEq, Repr

def maxHistory : ℕ := 10

def saveToHistory (s : RendererMask) : RendererMask :=
  if s.maskCtx = false then s
  else
    let pushed := s.maskHistory ++ [s.mask]
    { s with maskHistory := if maxHistory < pushed.length then pushed.tail else pushed }

def undoMask (s : RendererMask) : Bool × RendererMask :=
  if s.maskCtx = false then (false, s)
  else
    match s.maskHistory.getLast? with
    | none => (false, s)
    | some imageData =>
        (true, { s with mask := imageData, maskHistory := s.maskHistory.dropLast })

def clearMask (s : RendererMask) : RendererMask :=
  if s.maskCtx = false then s
  else
    let s' := saveToHistory s
    { s' with mask := List.replicate s.mask.length 255 }

/-- drawOnMask paints a disc into the mask pixels; it touches only the mask
bitmap, never the history, so its pixel effect is modelled as an arbitrary
new bitmap. -/
def drawOnMask (s : RendererMask) (painted : List ℕ) : RendererMask :=
  if s.maskCtx = false then s else { s with mask := painted }

/-- invertMask body: for (i = 0; i < data.length; i += 4) invert R, G and B
and leave A.  ImageData buffers always have length a multiple of four. -/
def invertMask : List ℕ → List ℕ
  | r :: g :: b :: a :: rest => (255 - r) :: (255 - g) :: (255 - b) :: a :: invertMask rest
  | l => l

inductive MaskOp where
  | save : MaskOp
  | undo : MaskOp
  | clear : MaskOp
  | draw : List ℕ → MaskOp
deriving DecidableEq, Repr

def applyMaskOp (s : RendererMask) : MaskOp → RendererMask
  | .save => saveToHistory s
  | .undo => (undoMask s).2
  | .clear => clearMask s
  | .draw painted => drawOnMask s painted

def runMaskOps (s : RendererMask) : List MaskOp → RendererMask
  | [] => s
  | op :: ops => runMaskOps (applyMaskOp s op) ops

/- ============================================================
   ShaderManager: shaders list plus currentIndex, with
   nextShader / previousShader / setShaderByIndex / getCurrentShader,
   and ShaderMIDIApp.handleShaderChange('index', data).
   ============================================================ -/

structure ShaderManagerState where
  shaders : List String
  currentIndex : ℕ
deriving DecidableEq, Repr

def getCurrentShader (st : ShaderManagerState) : Option String :=
  if st.shaders.length = 0 then none else st.shaders.get? st.currentIndex

def nextShader (st : ShaderManagerState) : Option String × ShaderManagerState :=
  if st.shaders.length = 0 then (none, st)
  else
    let st' := { st with currentIndex := (st.currentIndex + 1) % st.shaders.length }
    (getCurrentShader st', st')

/-- previousShader computes (currentIndex - 1 + length) % length; over the
naturals the same value is (currentIndex + length - 1) % length since
currentIndex + length ≥ 1 in the non-empty branch. -/
def previousShader (st : ShaderManagerState) : Option String × ShaderManagerState :=
  if st.shaders.length = 0 then (none, st)
  else
    let st' := { st with currentIndex := (st.currentIndex + st.shaders.length - 1) % st.shaders.length }
    (getCurrentShader st', st')

def setShaderByIndex (st : ShaderManagerState) (index : ℤ) : Option String × ShaderManagerState :=
  if 0 ≤ index ∧ index < st.shaders.length then
    let st' := { st with currentIndex := index.toNat }
    (getCurrentShader st', st')
  else (none, st)

/-- The 'index' branch of ShaderMIDIApp.handleShaderChange:
const shaderIndex = Math.floor((data / 127) * maxShaders). -/
def handleShaderChangeIndex (st : ShaderManagerState) (data : ℕ) : ShaderManagerState :=
  let maxShaders := st.shaders.length
  let shaderIndex : ℤ := ⌊((data : ℚ) / 127) * (maxShaders : ℚ)⌋
  (setShaderByIndex st shaderIndex).2

inductive SMOp where
  | next : SMOp
  | prev : SMOp
  | setIdx : ℤ → SMOp
deriving DecidableEq, Repr

def applySMOp (st : ShaderManagerState) : SMOp → Option String × ShaderManagerState
  | .next => nextShader st
  | .prev => previousShader st
  | .setIdx i => setShaderByIndex st i

def runSMOps (st : ShaderManagerState) : List SMOp → ShaderManagerState
  | [] => st
  | op :: ops => runSMOps (applySMOp st op).2 ops

/- ============================================================
   HSL color conversions from the wrapped fragment shader
   (identical GLSL in src/unnamed/part_001 and src/main.js).
   Colors are triples (r, g, b); GLSL floats become exact rationals.
   The local float variables maxc / minc / l / delta / s / h of rgb2hsl
   and c / x / m of hsl2rgb are factored out as named definitions.
   ============================================================ -/

/-- GLSL mod(x, y) = x - y * floor(x / y). -/
def glslMod (x y : ℚ) : ℚ := x - y * ⌊x / y⌋

def rgbMax (c : ℚ × ℚ × ℚ) : ℚ := max (max c.1 c.2.1) c.2.2

def rgbMin (c : ℚ × ℚ × ℚ) : ℚ := min (min c.1 c.2.1) c.2.2

def rgbLum (c : ℚ × ℚ × ℚ) : ℚ := (rgbMax c + rgbMin c) / 2

def rgbDelta (c : ℚ × ℚ × ℚ) : ℚ := rgbMax c - rgbMin c

/-- float s = l > 0.5 ? delta / (2.0 - maxc - minc) : delta / (maxc + minc) -/
def rgbSat (c : ℚ × ℚ × ℚ) : ℚ :=
  if rgbLum c > 1/2 then rgbDelta c / (2 - rgbMax c - rgbMin c)
  else rgbDelta c / (rgbMax c + rgbMin c)

/-- The hue h of rgb2hsl before the final division by 6. -/
def rgbHue6 (c : ℚ × ℚ × ℚ) : ℚ :=
  if c.1 = rgbMax c then
    (c.2.1 - c.2.2) / rgbDelta c + (if c.2.1 < c.2.2 then 6 else 0)
  else if c.2.1 = rgbMax c then
    (c.2.2 - c.1) / rgbDelta c + 2
  else
    (c.1 - c.2.1) / rgbDelta c + 4

def rgb2hsl (c : ℚ × ℚ × ℚ) : ℚ × ℚ × ℚ :=
  if rgbMax c = rgbMin c then (0, 0, rgbLum c)
  else (rgbHue6 c / 6, rgbSat c, rgbLum c)

/-- float c = (1.0 - abs(2.0 * l - 1.0)) * s -/
def hslChroma (hsl : ℚ × ℚ × ℚ) : ℚ := (1 - |2 * hsl.2.2 - 1|) * hsl.2.1

/-- float x = c * (1.0 - abs(mod(h * 6.0, 2.0) - 1.0)) -/
def hslX (hsl : ℚ × ℚ × ℚ) : ℚ := hslChroma hsl * (1 - |glslMod (hsl.1 * 6) 2 - 1|)

/-- float m = l - c / 2.0 -/
def hslM (hsl : ℚ × ℚ × ℚ) : ℚ := hsl.2.2 - hslChroma hsl / 2

def hsl2rgb (hsl : ℚ × ℚ × ℚ) : ℚ × ℚ × ℚ :=
  let h := hsl.1
  let c := hslChroma hsl
  let x := hslX hsl
  let m := hslM hsl
  if h < 1/6 then (c + m, x + m, 0 + m)
  else if h < 2/6 then (x + m, c + m, 0 + m)
  else if h < 3/6 then (0 + m, c + m, x + m)
  else if h < 4/6 then (0 + m, x + m, c + m)
  else if h < 5/6 then (x + m, 0 + m, c + m)
  else (c + m, 0 + m, x + m)

/- ============================================================
   Mirror / kaleidoscope block of the wrapped main() (GLSL, over ℝ):

     if (u_mirror > 0.5) {
         vec2 centered = fragCoord - center;
         if (u_mirrorSegments > 2.0) {
             float angle = atan(centered.y, centered.x);
             float radius = length(centered);
             float segmentAngle = 3.14159265 * 2.0 / u_mirrorSegments;
             angle = mod(angle, segmentAngle);
             if (angle > segmentAngle * 0.5) { angle = segmentAngle - angle; }
             centered = vec2(cos(angle), sin(angle)) * radius;
         } else { ... simple mirror ... }
         fragCoord = centered + center;
     }

   atan(y, x) is modelled by Complex.arg (both have range (-pi, pi] with
   the branch cut on the negative x-axis), length by the square root of
   the sum of squares, and mod by the floor-based GLSL mod.
   ============================================================ -/

noncomputable def glslModR (x y : ℝ) : ℝ := x - y * ⌊x / y⌋

noncomputable def kaleidoSegmentAngle (segments : ℝ) : ℝ := 3.14159265 * 2 / segments

noncomputable def foldAngle (segments angle : ℝ) : ℝ :=
  let segmentAngle := kaleidoSegmentAngle segments
  let a := glslModR angle segmentAngle
  if a > segmentAngle * 0.5 then segmentAngle - a else a

noncomputable def kaleidoFold (segments : ℝ) (centered : ℝ × ℝ) : ℝ × ℝ :=
  let angle := Complex.arg ⟨centered.1, centered.2⟩
  let radius := Real.sqrt (centered.1 ^ 2 + centered.2 ^ 2)
  let a := foldAngle segments angle
  (Real.cos a * radius, Real.sin a * radius)

noncomputable def simpleMirror (split : ℝ) (centerX : ℝ) (centered : ℝ × ℝ) : ℝ × ℝ :=
  let sourceShift := (split - 0.5) * centerX * 2
  let x := if centered.1 > 0 then -centered.1 else centered.1
  (x + sourceShift, centered.2)

noncomputable def mirrorBlock (mirror segments split : ℝ) (center fragCoord : ℝ × ℝ) :
    ℝ × ℝ :=
  if mirror > 0.5 then
    let centered := (fragCoord.1 - center.1, fragCoord.2 - center.2)
    let folded :=
      if segments > 2 then kaleidoFold segments centered
      else simpleMirror split center.1 centered
    (folded.1 + center.1, folded.2 + center.2)
  else fragCoord

/-- Euclidean distance of two points, as GLSL length(p - q). -/
noncomputable def dist2 (p q : ℝ × ℝ) : ℝ :=
  Real.sqrt ((p.1 - q.1) ^ 2 + (p.2 - q.2) ^ 2)

/- ============================================================
   VideoInputManager.startWebcam, as a state transition.  The async
   navigator.mediaDevices.getUserMedia call is modelled by an explicit
   outcome argument; the catch block optionally refreshes the device
   list (NotFoundError / DevicesNotFoundError), shows an alert, resets
   the selector to 'none' and clears currentDeviceId / currentSource.
   The second component lists the textures handed to onVideoReady: on
   success the loadeddata listener will eventually deliver one, on
   failure none is ever delivered.
   ============================================================ -/

structure VideoState where
  currentDeviceId : Option String
  currentSource : String
  selectorValue : String
  availableDevices : List String
  videoElem : Bool
deriving DecidableEq, Repr

inductive CamOutcome where
  | ok : CamOutcome
  | err : String → CamOutcome
deriving DecidableEq, Repr

def errNotFound : String := "NotFoundError"

def errDevicesNotFound : String := "DevicesNotFoundError"

def sourceNone : String := "none"

def sourceCamera : String := "camera"

/-- A camera device id used in concrete instantiations. -/
def camOne : String := "cam1"

/-- An error name outside the device-not-found pair, for concrete
instantiations. -/
def errOther : String := "OverconstrainedError"

/-- updateDeviceList: re-enumerates devices (result supplied as an argument)
and re-renders the selector, which ends on the current device id if set and
on 'none' otherwise. -/
def updateDeviceListM (st : VideoState) (devices : List String) : VideoState :=
  { st with
    availableDevices := devices
    selectorValue :=
      match st.currentDeviceId with
      | some d => d
      | none => sourceNone }

def startWebcam (st : VideoState) (outcome : CamOutcome) (freshDevices : List String) :
    VideoState × List Unit :=
  match outcome with
  | .ok =>
      ({ st with videoElem := true }, [()])
  | .err name =>
      let st1 :=
        if name = errNotFound ∨ name = errDevicesNotFound
        then updateDeviceListM st freshDevices else st
      ({ st1 with
          selectorValue := sourceNone
          currentDeviceId := none
          currentSource := sourceNone }, [])

/- ============================================================
   ShaderRenderer.createShaderMaterial (src/unnamed/part_001): the user
   fragment shader body is spliced into one fixed template literal.
   wrapHead is the template text before the splice point and wrapTail the
   text after it, transcribed verbatim (braces written as \x7b / \x7d
   escapes, which denote the same characters).
   ============================================================ -/

def wrapHead : String :=
  "\n            uniform float iTime;\n            uniform vec2 iResolution;\n            uniform float iTimeDelta;\n            uniform int iFrame;\n\n            // Global controls\n            uniform float u_vibrance;\n            uniform float u_hue;\n            uniform float u_saturation;\n            uniform float u_grayscale;\n            uniform float u_contrast;\n            uniform float u_brightness;\n            uniform float u_zoom;\n            uniform float u_speed;\n            uniform float u_mirror;\n            uniform float u_videoMix;\n            uniform float u_audioIntensity;\n            uniform float u_audioToHue;\n            uniform float u_audioToSaturation;\n            uniform float u_audioToBrightness;\n            uniform float u_audioToZoom;\n            uniform float u_mirrorSplit;\n            uniform float u_mirrorSegments;\n\n            // Perspective transform corners (normalized 0-1)\n            uniform vec2 u_perspTL;  // Top-left\n            uniform vec2 u_perspTR;  // Top-right\n            uniform vec2 u_perspBL;  // Bottom-left\n            uniform vec2 u_perspBR;  // Bottom-right\n            uniform bool u_perspActive;\n\n            // Video and audio\n            uniform sampler2D u_videoTexture;\n            uniform bool u_hasVideo;\n            uniform float u_audioBass;\n            uniform float u_audioMid;\n            uniform float u_audioTreble;\n\n            // Mask for edit mode\n            uniform sampler2D u_maskTexture;\n            uniform bool u_hasMask;\n\n            // RGB to HSL conversion\n            vec3 rgb2hsl(vec3 color) \x7b\n                float maxc = max(max(color.r, color.g), color.b);\n                float minc = min(min(color.r, color.g), color.b);\n                float l = (maxc + minc) / 2.0;\n\n                if (maxc == minc) \x7b\n                    return vec3(0.0, 0.0, l);\n                \x7d\n\n                float delta = maxc - minc;\n                float s = l > 0.5 ? delta / (2.0 - maxc - minc) : delta / (maxc + minc);\n\n                float h;\n                if (color.r == maxc) \x7b\n                    h = (color.g - color.b) / delta + (color.g < color.b ? 6.0 : 0.0);\n                \x7d else if (color.g == maxc) \x7b\n                    h = (color.b - color.r) / delta + 2.0;\n                \x7d else \x7b\n                    h = (color.r - color.g) / delta + 4.0;\n                \x7d\n                h /= 6.0;\n\n                return vec3(h, s, l);\n            \x7d\n\n            // HSL to RGB conversion\n            vec3 hsl2rgb(vec3 hsl) \x7b\n                float h = hsl.x;\n                float s = hsl.y;\n                float l = hsl.z;\n\n                float c = (1.0 - abs(2.0 * l - 1.0)) * s;\n                float x = c * (1.0 - abs(mod(h * 6.0, 2.0) - 1.0));\n                float m = l - c / 2.0;\n\n                vec3 rgb;\n                if (h < 1.0/6.0) rgb = vec3(c, x, 0.0);\n                else if (h < 2.0/6.0) rgb = vec3(x, c, 0.0);\n                else if (h < 3.0/6.0) rgb = vec3(0.0, c, x);\n                else if (h < 4.0/6.0) rgb = vec3(0.0, x, c);\n                else if (h < 5.0/6.0) rgb = vec3(x, 0.0, c);\n                else rgb = vec3(c, 0.0, x);\n\n                return rgb + m;\n            \x7d\n\n            // Check if point is inside a quad using cross products\n            float crossSign(vec2 a, vec2 b, vec2 p) \x7b\n                return (b.x - a.x) * (p.y - a.y) - (b.y - a.y) * (p.x - a.x);\n            \x7d\n\n            bool pointInQuad(vec2 p, vec2 tl, vec2 tr, vec2 br, vec2 bl) \x7b\n                // Check if point is on the same side of all edges\n                float d1 = crossSign(tl, tr, p);\n                float d2 = crossSign(tr, br, p);\n                float d3 = crossSign(br, bl, p);\n                float d4 = crossSign(bl, tl, p);\n\n                bool hasNeg = (d1 < 0.0) || (d2 < 0.0) || (d3 < 0.0) || (d4 < 0.0);\n                bool hasPos = (d1 > 0.0) || (d2 > 0.0) || (d3 > 0.0) || (d4 > 0.0);\n\n                return !(hasNeg && hasPos);\n            \x7d\n\n            "

def wrapTail : String :=
  "\n\n            void main() \x7b\n                vec2 fragCoord = gl_FragCoord.xy;\n                vec2 screenUV = fragCoord / iResolution.xy;\n\n                // Calculate audio modulation (bass is most impactful)\n                float audioMod = u_audioBass;\n\n                // Apply zoom with audio modulation\n                float dynamicZoom = u_zoom + (audioMod * u_audioToZoom * 2.0);\n                vec2 center = iResolution.xy * 0.5;\n                fragCoord = (fragCoord - center) / dynamicZoom + center;\n\n                // Apply perspective transformation first\n                bool outsidePerspective = false;\n                if (u_perspActive) \x7b\n                    // Screen UV: (0,0) = bottom-left in WebGL, but our corners use (0,0) = top-left\n                    // So we need to flip Y for the check\n                    vec2 checkUV = vec2(screenUV.x, 1.0 - screenUV.y);\n\n                    // Check if screen point is inside the perspective quad\n                    if (!pointInQuad(checkUV, u_perspTL, u_perspTR, u_perspBR, u_perspBL)) \x7b\n                        outsidePerspective = true;\n                    \x7d\n\n                    // Bilinear interpolation for perspective correction\n                    // Map from screen position to texture position\n                    vec2 uv = fragCoord / iResolution.xy;\n                    // Flip Y to match our screen coordinate system\n                    float screenY = 1.0 - uv.y;\n\n                    // Interpolate: top edge at screenY=0, bottom edge at screenY=1\n                    vec2 topInterp = mix(u_perspTL, u_perspTR, uv.x);\n                    vec2 bottomInterp = mix(u_perspBL, u_perspBR, uv.x);\n                    vec2 perspUV = mix(topInterp, bottomInterp, screenY);\n\n                    // Convert back to shader coords (flip Y back)\n                    perspUV.y = 1.0 - perspUV.y;\n\n                    fragCoord = perspUV * iResolution.xy;\n                \x7d\n\n                // Apply mirror/kaleidoscope effect (always from center)\n                if (u_mirror > 0.5) \x7b\n                    // Convert to centered coordinates\n                    vec2 centered = fragCoord - center;\n\n                    if (u_mirrorSegments > 2.0) \x7b\n                        // Kaleidoscope mode: mirror in circular segments\n                        float angle = atan(centered.y, centered.x);\n                        float radius = length(centered);\n\n                        // Calculate segment angle based on number of segments\n                        float segmentAngle = 3.14159265 * 2.0 / u_mirrorSegments;\n\n                        // Fold angle into first segment\n                        angle = mod(angle, segmentAngle);\n\n                        // Mirror within segment (creates kaleidoscope effect)\n                        if (angle > segmentAngle * 0.5) \x7b\n                            angle = segmentAngle - angle;\n                        \x7d\n\n                        // Convert back to cartesian\n                        centered = vec2(cos(angle), sin(angle)) * radius;\n                    \x7d else \x7b\n                        // Simple mirror from center\n                        // CC0 shifts the source horizontally (where to sample from)\n                        float sourceShift = (u_mirrorSplit - 0.5) * center.x * 2.0;\n\n                        // Mirror: right side shows flipped left side\n                        if (centered.x > 0.0) \x7b\n                            centered.x = -centered.x;\n                        \x7d\n\n                        // Apply source shift\n                        centered.x = centered.x + sourceShift;\n                    \x7d\n\n                    fragCoord = centered + center;\n                \x7d\n\n                vec4 color = vec4(0.0);\n\n                // Call the user's mainImage function with modified coordinates\n                mainImage(color, fragCoord);\n\n                vec3 finalColor = color.rgb;\n\n                // Apply brightness with audio modulation\n                float dynamicBrightness = u_brightness + (audioMod * u_audioToBrightness);\n                finalColor *= dynamicBrightness;\n\n                // Apply contrast\n                finalColor = (finalColor - 0.5) * u_contrast + 0.5;\n\n                // Apply global color transformations via HSL\n                vec3 hsl = rgb2hsl(finalColor);\n\n                // Apply hue rotation with audio modulation\n                float dynamicHue = u_hue + (audioMod * u_audioToHue * 360.0);\n                hsl.x = mod(hsl.x + dynamicHue / 360.0, 1.0);\n\n                // Apply saturation adjustment with audio modulation\n                float dynamicSaturation = u_saturation + (audioMod * u_audioToSaturation);\n                hsl.y *= clamp(dynamicSaturation, 0.0, 2.0);\n\n                // Apply vibrance (boost less saturated colors more)\n                float satBoost = (1.0 - hsl.y) * u_vibrance;\n                hsl.y = clamp(hsl.y + satBoost, 0.0, 1.0);\n\n                finalColor = hsl2rgb(hsl);\n\n                // Apply grayscale\n                float gray = dot(finalColor, vec3(0.299, 0.587, 0.114));\n                finalColor = mix(finalColor, vec3(gray), u_grayscale);\n\n                // Mix with video texture if available\n                if (u_hasVideo && u_videoMix > 0.0) \x7b\n                    vec2 videoUV = gl_FragCoord.xy / iResolution.xy;\n                    videoUV.y = 1.0 - videoUV.y; // Flip Y coordinate\n                    vec3 videoColor = texture2D(u_videoTexture, videoUV).rgb;\n                    finalColor = mix(finalColor, videoColor, u_videoMix);\n                \x7d\n\n                // Apply mask if active\n                float maskAlpha = 1.0;\n                if (u_hasMask) \x7b\n                    vec2 maskUV = gl_FragCoord.xy / iResolution.xy;\n                    maskUV.y = 1.0 - maskUV.y; // Flip Y coordinate\n                    maskAlpha = texture2D(u_maskTexture, maskUV).r;\n                \x7d\n\n                // Black outside perspective area\n                if (outsidePerspective) \x7b\n                    gl_FragColor = vec4(0.0, 0.0, 0.0, 1.0);\n                    return;\n                \x7d\n\n                gl_FragColor = vec4(finalColor * maskAlpha, color.a * maskAlpha);\n            \x7d\n        "

/-- const wrappedFragmentShader = `...${fragmentShader}...`: the template
literal concatenates the fixed head, the user body and the fixed tail. -/
def wrappedFragmentShader (fragmentShader : String) : String :=
  wrapHead ++ fragmentShader ++ wrapTail

/-- pat occurs in w as the substring starting at index i. -/
def occursAt (w pat : List Char) (i : ℕ) : Prop :=
  (w.drop i).take pat.length = pat

instance (w pat : List Char) (i : ℕ) : Decidable (occursAt w pat i) := by
  unfold occursAt; infer_instance

/-- pat has exactly one occurrence in w. -/
def appearsExactlyOnce (w pat : List Char) : Prop :=
  ∃! i, occursAt w pat i

def mainMarker : String := "void main"

/- ============================================================
   Helper lemmas
   ============================================================ -/

lemma saveToHistory_bound (s : RendererMask) (h : s.maskHistory.length ≤ maxHistory) :
    (saveToHistory s).maskHistory.length ≤ maxHistory := by
  simp only [saveToHistory]
  by_cases hctx : s.maskCtx = false
  · rw [if_pos hctx]; exact h
  · rw [if_neg hctx]
    by_cases htrim : maxHistory < (s.maskHistory ++ [s.mask]).length
    · rw [if_pos htrim]
      simp only [List.length_tail, List.length_append, List.length_singleton]
      omega
    · rw [if_neg htrim]
      simp only [List.length_append, List.length_singleton, not_lt] at htrim
      simp only [List.length_append, List.length_singleton]
      omega

lemma applyMaskOp_bound (s : RendererMask) (op : MaskOp) (h : s.maskHistory.length ≤ maxHistory) :
    (applyMaskOp s op).maskHistory.length ≤ maxHistory := by
  cases op with
  | save => exact saveToHistory_bound s h
  | undo =>
      rw [applyMaskOp, undoMask]
      by_cases hctx : s.maskCtx = false
      · rw [if_pos hctx]; exact h
      · rw [if_neg hctx]
        cases hl : s.maskHistory.getLast? with
        | none => exact h
        | some d =>
            simp only [List.length_dropLast]
            omega
  | clear =>
      rw [applyMaskOp, clearMask]
      by_cases hctx : s.maskCtx = false
      · rw [if_pos hctx]; exact h
      · rw [if_neg hctx]
        simpa using saveToHistory_bound s h
  | draw painted =>
      rw [applyMaskOp, drawOnMask]
      by_cases hctx : s.maskCtx = false
      · rw [if_pos hctx]; exact h
      · rw [if_neg hctx]; simpa using h

lemma runMaskOps_bound (ops : List MaskOp) :
    ∀ s : RendererMask, s.maskHistory.length ≤ maxHistory →
      (runMaskOps s ops).maskHistory.length ≤ maxHistory := by
  induction ops with
  | nil => intro s h; exact h
  | cons op ops ih => intro s h; exact ih _ (applyMaskOp_bound s op h)

lemma saveToHistory_full (s : RendererMask) (hctx : s.maskCtx = true)
    (hfull : s.maskHistory.length = maxHistory) :
    (saveToHistory s).maskHistory = s.maskHistory.tail ++ [s.mask] := by
  rw [saveToHistory, hctx]
  have htrim : maxHistory < (s.maskHistory ++ [s.mask]).length := by
    simp [hfull]
  simp only [Bool.true_eq_false, if_false, if_pos htrim]
  cases h : s.maskHistory with
  | nil => rw [h] at hfull; simp [maxHistory] at hfull
  | cons a t => simp

lemma saveToHistory_getLast (s : RendererMask) (hctx : s.maskCtx = true) :
    (saveToHistory s).maskHistory.getLast? = some s.mask := by
  rw [saveToHistory, hctx]
  simp only [Bool.true_eq_false, if_false]
  by_cases htrim : maxHistory < (s.maskHistory ++ [s.mask]).length
  · rw [if_pos htrim]
    cases h : s.maskHistory with
    | nil => rw [h] at htrim; simp [maxHistory] at htrim
    | cons a t => simp
  · rw [if_neg htrim]; simp

lemma saveToHistory_maskCtx (s : RendererMask) : (saveToHistory s).maskCtx = s.maskCtx := by
  simp only [saveToHistory]
  split_ifs <;> rfl

lemma undoMask_of_getLast (t : RendererMask) (hctx : t.maskCtx = true) (d : List ℕ)
    (h : t.maskHistory.getLast? = some d) :
    undoMask t = (true, { t with mask := d, maskHistory := t.maskHistory.dropLast }) := by
  rw [undoMask, hctx]
  simp only [Bool.true_eq_false, if_false, h]

lemma undoMask_nil (t : RendererMask) (h : t.maskHistory = []) : undoMask t = (false, t) := by
  rw [undoMask]
  by_cases hctx : t.maskCtx = false
  · rw [if_pos hctx]
  · rw [if_neg hctx, h]
    rfl

/-- Claim C4: after saveToHistory captures the current mask and the mask is
then mutated arbitrarily, undoMask restores the saved mask pixels, removes
that history entry and returns true; with an empty history undoMask returns
false and leaves the state unchanged. -/
theorem undoMask_lifo (s : RendererMask) (hctx : s.maskCtx = true) (painted : List ℕ) :
    (undoMask { saveToHistory s with mask := painted }).1 = true ∧
    (undoMask { saveToHistory s with mask := painted }).2.mask = s.mask ∧
    (undoMask { saveToHistory s with mask := painted }).2.maskHistory =
      (saveToHistory s).maskHistory.dropLast ∧
    (∀ t : RendererMask, t.maskHistory = [] → undoMask t = (false, t)) := by
  have hctx2 : ({ saveToHistory s with mask := painted } : RendererMask).maskCtx = true := by
    show (saveToHistory s).maskCtx = true
    rw [saveToHistory_maskCtx, hctx]
  have hlast : ({ saveToHistory s with mask := painted } : RendererMask).maskHistory.getLast?
      = some s.mask := saveToHistory_getLast s hctx
  rw [undoMask_of_getLast _ hctx2 _ hlast]
  exact ⟨rfl, rfl, rfl, undoMask_nil⟩

theorem undoMask_lifo_witness :
    (⟨true, [7], [[1]]⟩ : RendererMask).maskCtx = true ∧
    (undoMask { saveToHistory (⟨true, [7], [[1]]⟩ : RendererMask) with mask := [9] }).2.mask
      = [7] :=
  ⟨rfl, (undoMask_lifo ⟨true, [7], [[1]]⟩ rfl [9]).2.1⟩

/-- Claim C5: under every sequence of save / undo / clear / draw operations
the mask history length never exceeds maxHistory = 10, and a save on a full
history discards the oldest entry and keeps the newer ones in order. -/
theorem maskHistory_never_exceeds :
    (∀ (ops : List MaskOp) (s : RendererMask), s.maskHistory.length ≤ maxHistory →
      (runMaskOps s ops).maskHistory.length ≤ maxHistory) ∧
    (∀ s : RendererMask, s.maskCtx = true → s.maskHistory.length = maxHistory →
      (saveToHistory s).maskHistory = s.maskHistory.tail ++ [s.mask]) :=
  ⟨runMaskOps_bound, saveToHistory_full⟩

theorem maskHistory_never_exceeds_witness :
    (⟨true, [3], []⟩ : RendererMask).maskHistory.length ≤ maxHistory ∧
    (runMaskOps ⟨true, [3], []⟩
      [MaskOp.save, MaskOp.save, MaskOp.clear, MaskOp.undo]).maskHistory.length ≤ maxHistory :=
  ⟨by decide, maskHistory_never_exceeds.1 [MaskOp.save, MaskOp.save, MaskOp.clear, MaskOp.undo]
    ⟨true, [3], []⟩ (by decide)⟩

/-- Claim C7: when getUserMedia fails, startWebcam resets the video pipeline
to the disabled state: currentDeviceId is null, currentSource is 'none', the
camera selector shows 'none', no texture is handed to onVideoReady; and for
errors other than the two device-not-found names nothing beyond this reset
happens. -/
theorem startWebcam_error_resets (st : VideoState) (name : String)
    (freshDevices : List String) :
    (startWebcam st (.err name) freshDevices).1.currentDeviceId = none ∧
    (startWebcam st (.err name) freshDevices).1.currentSource = sourceNone ∧
    (startWebcam st (.err name) freshDevices).1.selectorValue = sourceNone ∧
    (startWebcam st (.err name) freshDevices).2 = [] ∧
    (¬(name = errNotFound ∨ name = errDevicesNotFound) →
      (startWebcam st (.err name) freshDevices).1 =
        { st with selectorValue := sourceNone, currentDeviceId := none,
                  currentSource := sourceNone }) := by
  refine ⟨rfl, rfl, rfl, rfl, fun hname => ?_⟩
  simp only [startWebcam, if_neg hname]

theorem startWebcam_error_resets_witness :
    ¬(errOther = errNotFound ∨ errOther = errDevicesNotFound) ∧
    (startWebcam ⟨some camOne, sourceCamera, camOne, [camOne], true⟩
        (.err errOther) []).1.currentDeviceId = none :=
  ⟨by decide, (startWebcam_error_resets ⟨some camOne, sourceCamera, camOne, [camOne], true⟩
      errOther []).1⟩

/-- Claim C8: MIDI note to shader index mapping.  handleShaderChange('index', n)
computes floor((n/127) * length) and switches to that shader exactly when the
index is below the list length; at n = 127 the index equals the length, the
bounds check of setShaderByIndex fails, and the current shader is unchanged. -/
theorem handleShaderChange_index_spec (st : ShaderManagerState) (n : ℕ)
    (hn : n ≤ 127) (hL : 0 < st.shaders.length) :
    (⌊((n : ℚ) / 127) * (st.shaders.length : ℚ)⌋ < (st.shaders.length : ℤ) →
      (handleShaderChangeIndex st n).shaders = st.shaders ∧
      (handleShaderChangeIndex st n).currentIndex =
        (⌊((n : ℚ) / 127) * (st.shaders.length : ℚ)⌋).toNat) ∧
    (n = 127 →
      ⌊((n : ℚ) / 127) * (st.shaders.length : ℚ)⌋ = (st.shaders.length : ℤ) ∧
      handleShaderChangeIndex st n = st) := by
  have h0 : (0 : ℤ) ≤ ⌊((n : ℚ) / 127) * (st.shaders.length : ℚ)⌋ := by
    apply Int.floor_nonneg.mpr
    positivity
  constructor
  · intro hlt
    rw [handleShaderChangeIndex, setShaderByIndex, if_pos ⟨h0, hlt⟩]
    exact ⟨rfl, rfl⟩
  · intro h127
    subst h127
    have hcast : ((127 : ℕ) : ℚ) / 127 * (st.shaders.length : ℚ) = (st.shaders.length : ℚ) := by
      norm_num
    have hfl : ⌊((127 : ℕ) : ℚ) / 127 * (st.shaders.length : ℚ)⌋ = (st.shaders.length : ℤ) := by
      rw [hcast]
      exact_mod_cast Int.floor_natCast st.shaders.length
    refine ⟨hfl, ?_⟩
    rw [handleShaderChangeIndex, setShaderByIndex, hfl, if_neg]
    intro hcon
    exact absurd hcon.2 (lt_irrefl _)

theorem handleShaderChange_index_spec_witness :
    ((127 : ℕ) ≤ 127 ∧ 0 < ([camOne, sourceNone, errOther] : List String).length) ∧
    (⌊(((127 : ℕ) : ℚ) / 127) * ((([camOne, sourceNone, errOther] : List String).length : ℕ) : ℚ)⌋
        = ((([camOne, sourceNone, errOther] : List String).length : ℕ) : ℤ) ∧
      handleShaderChangeIndex ⟨[camOne, sourceNone, errOther], 0⟩ 127
        = ⟨[camOne, sourceNone, errOther], 0⟩) :=
  ⟨⟨by decide, by decide⟩,
    (handleShaderChange_index_spec ⟨[camOne, sourceNone, errOther], 0⟩ 127
      (by decide) (by decide)).2 rfl⟩

lemma applySMOp_preserves (st : ShaderManagerState) (op : SMOp)
    (h : st.currentIndex < st.shaders.length) :
    (applySMOp st op).2.shaders = st.shaders ∧
    (applySMOp st op).2.currentIndex < (applySMOp st op).2.shaders.length := by
  have hL : ¬ st.shaders.length = 0 := by omega
  cases op with
  | next =>
      simp only [applySMOp, nextShader, if_neg hL]
      exact ⟨trivial, Nat.mod_lt _ (by omega)⟩
  | prev =>
      simp only [applySMOp, previousShader, if_neg hL]
      exact ⟨trivial, Nat.mod_lt _ (by omega)⟩
  | setIdx i =>
      simp only [applySMOp, setShaderByIndex]
      by_cases hc : 0 ≤ i ∧ i < (st.shaders.length : ℤ)
      · rw [if_pos hc]
        refine ⟨rfl, ?_⟩
        show i.toNat < st.shaders.length
        have h2 := hc.2
        omega
      · rw [if_neg hc]
        exact ⟨rfl, h⟩

lemma runSMOps_preserves (ops : List SMOp) :
    ∀ st : ShaderManagerState, st.currentIndex < st.shaders.length →
      (runSMOps st ops).shaders = st.shaders ∧
      (runSMOps st ops).currentIndex < (runSMOps st ops).shaders.length := by
  induction ops with
  | nil => intro st h; exact ⟨rfl, h⟩
  | cons op ops ih =>
      intro st h
      obtain ⟨h1, h2⟩ := applySMOp_preserves st op h
      obtain ⟨ih1, ih2⟩ := ih (applySMOp st op).2 h2
      rw [runSMOps]
      exact ⟨by rw [ih1, h1], ih2⟩

lemma getCurrentShader_isSome (st : ShaderManagerState)
    (h : st.currentIndex < st.shaders.length) :
    (getCurrentShader st).isSome = true := by
  rw [getCurrentShader, if_neg (by omega)]
  rw [List.get?_eq_get h]
  rfl

lemma applySMOp_empty (op : SMOp) (st : ShaderManagerState) (h : st.shaders = []) :
    applySMOp st op = (none, st) := by
  have hL : st.shaders.length = 0 := by rw [h]; rfl
  cases op with
  | next => simp only [applySMOp, nextShader, if_pos hL]
  | prev => simp only [applySMOp, previousShader, if_pos hL]
  | setIdx i =>
      rw [applySMOp, setShaderByIndex, if_neg]
      intro hcon
      rw [hL] at hcon
      omega

lemma runSMOps_empty_init (ops : List SMOp) :
    runSMOps { shaders := [], currentIndex := 0 } ops
      = { shaders := [], currentIndex := 0 } := by
  induction ops with
  | nil => rfl
  | cons op ops ih =>
      rw [runSMOps, applySMOp_empty op _ rfl]
      exact ih

/-- Claim C9: ShaderManager keeps 0 ≤ currentIndex < shaders.length under
every sequence of nextShader / previousShader / setShaderByIndex calls on a
non-empty list, so getCurrentShader always names an existing shader; on an
empty list every operation returns null, leaves the state unchanged, and the
index stays at its initial value 0. -/
theorem shaderManager_invariant :
    (∀ (ops : List SMOp) (st : ShaderManagerState),
      st.currentIndex < st.shaders.length →
      (runSMOps st ops).shaders = st.shaders ∧
      (runSMOps st ops).currentIndex < (runSMOps st ops).shaders.length ∧
      (getCurrentShader (runSMOps st ops)).isSome = true) ∧
    (∀ (op : SMOp) (st : ShaderManagerState), st.shaders = [] →
      applySMOp st op = (none, st)) ∧
    (∀ ops : List SMOp,
      (runSMOps { shaders := [], currentIndex := 0 } ops).currentIndex = 0) := by
  refine ⟨fun ops st h => ?_, fun op st h => applySMOp_empty op st h,
    fun ops => by rw [runSMOps_empty_init]⟩
  obtain ⟨h1, h2⟩ := runSMOps_preserves ops st h
  exact ⟨h1, h2, getCurrentShader_isSome _ h2⟩

theorem shaderManager_invariant_witness :
    ((⟨[camOne, sourceNone], 0⟩ : ShaderManagerState).currentIndex
        < (⟨[camOne, sourceNone], 0⟩ : ShaderManagerState).shaders.length) ∧
    (getCurrentShader (runSMOps ⟨[camOne, sourceNone], 0⟩
        [SMOp.next, SMOp.next, SMOp.prev, SMOp.setIdx 1, SMOp.setIdx 5])).isSome = true :=
  ⟨by decide,
    (shaderManager_invariant.1 [SMOp.next, SMOp.next, SMOp.prev, SMOp.setIdx 1, SMOp.setIdx 5]
      ⟨[camOne, sourceNone], 0⟩ (by decide)).2.2⟩

/-- Claim C10: invertMask replaces R, G and B of every pixel by 255 - v,
leaves the alpha channel untouched, and is an involution on byte buffers
(ImageData: length a multiple of 4, every byte at most 255). -/
theorem invertMask_involution :
    ∀ l : List ℕ, l.length % 4 = 0 → (∀ v ∈ l, v ≤ 255) →
      invertMask (invertMask l) = l ∧
      ∀ i : ℕ, (invertMask l).get? i =
        (l.get? i).map (fun v => if i % 4 = 3 then v else 255 - v) := by
  intro l
  induction l using invertMask.induct with
  | case1 r g b a rest ih =>
      intro hlen hb
      have hlen' : rest.length % 4 = 0 := by
        simp only [List.length_cons] at hlen
        omega
      have hb' : ∀ v ∈ rest, v ≤ 255 := fun v hv => hb v (by simp [hv])
      obtain ⟨ih1, ih2⟩ := ih hlen' hb'
      have hr : r ≤ 255 := hb r (by simp)
      have hg : g ≤ 255 := hb g (by simp)
      have hbb : b ≤ 255 := hb b (by simp)
      constructor
      · show (255 - (255 - r)) :: (255 - (255 - g)) :: (255 - (255 - b)) :: a ::
            invertMask (invertMask rest) = r :: g :: b :: a :: rest
        rw [Nat.sub_sub_self hr, Nat.sub_sub_self hg, Nat.sub_sub_self hbb, ih1]
      · intro i
        match i with
        | 0 => rfl
        | 1 => rfl
        | 2 => rfl
        | 3 => rfl
        | (n+4) =>
            have hmod : (n + 4) % 4 = n % 4 := by omega
            simp only [hmod]
            show (invertMask rest).get? n =
              (rest.get? n).map (fun v => if n % 4 = 3 then v else 255 - v)
            exact ih2 n
  | case2 l h1 =>
      intro hlen hb
      rcases l with _ | ⟨r, _ | ⟨g, _ | ⟨b, _ | ⟨a, rest⟩⟩⟩⟩
      · exact ⟨rfl, fun i => by simp [invertMask]⟩
      · simp at hlen
      · simp at hlen
      · simp at hlen
      · exact absurd rfl (h1 r g b a rest)

theorem invertMask_involution_witness :
    (([10, 20, 30, 40, 0, 255, 7, 9] : List ℕ).length % 4 = 0 ∧
      ∀ v ∈ ([10, 20, 30, 40, 0, 255, 7, 9] : List ℕ), v ≤ 255) ∧
    invertMask (invertMask [10, 20, 30, 40, 0, 255, 7, 9]) = [10, 20, 30, 40, 0, 255, 7, 9] :=
  ⟨⟨by decide, by decide⟩,
    (invertMask_involution [10, 20, 30, 40, 0, 255, 7, 9] (by decide) (by decide)).1⟩

/-- Claim C3 (amended): createShaderMaterial builds the wrapped fragment
shader as wrapHead ++ s ++ wrapTail, where the head (uniforms and helper
functions) and tail (the main() post-processing stage) are fixed strings
independent of s, and the user body s is spliced in verbatim at the single
interpolation point, character offset wrapHead.length. -/
theorem wrappedFragmentShader_structure (s : String) :
    wrappedFragmentShader s = wrapHead ++ s ++ wrapTail ∧
    occursAt (wrappedFragmentShader s).data s.data wrapHead.data.length := by
  refine ⟨rfl, ?_⟩
  show ((wrapHead ++ s ++ wrapTail).data.drop wrapHead.data.length).take s.data.length = s.data
  have hdata : (wrapHead ++ s ++ wrapTail).data = wrapHead.data ++ (s.data ++ wrapTail.data) := by
    rw [String.data_append, String.data_append, List.append_assoc]
  rw [hdata, List.drop_left, List.take_left]

set_option maxRecDepth 40000 in
/-- Claim C3 as stated is false: the user body need not appear exactly once
in the result.  For the body "void main" the wrapped shader contains the
body at offset 3986 (the splice point) and again at offset 4009 (inside the
fixed void main() of the tail). -/
theorem wrappedFragmentShader_not_unique :
    ¬ appearsExactlyOnce (wrappedFragmentShader mainMarker).data mainMarker.data := by
  intro h
  obtain ⟨i, hi, huniq⟩ := h
  have h1 := huniq 3986 (by decide)
  have h2 := huniq 4009 (by decide)
  omega

lemma crossSign_cyclic (a b c : ℚ × ℚ) : crossSign a b c = crossSign b c a := by
  unfold crossSign; ring

lemma crossSign_swap (a b p : ℚ × ℚ) : crossSign a b p = -crossSign b a p := by
  unfold crossSign; ring

/-- The four edge cross products of any point against a quad sum to a
constant independent of the point: twice the quad's signed area. -/
lemma crossSign_sum (tl tr br bl p : ℚ × ℚ) :
    crossSign tl tr p + crossSign tr br p + crossSign br bl p + crossSign bl tl p
      = crossSign tl tr br + crossSign br bl tl := by
  unfold crossSign; ring

lemma crossSign_triangle_sum (a b c p : ℚ × ℚ) :
    crossSign a b p + crossSign b c p + crossSign c a p = crossSign a b c := by
  unfold crossSign; ring

lemma crossSign_cramer_x (a b c p : ℚ × ℚ) :
    crossSign b c p * a.1 + crossSign c a p * b.1 + crossSign a b p * c.1
      = crossSign a b c * p.1 := by
  unfold crossSign; ring

lemma crossSign_cramer_y (a b c p : ℚ × ℚ) :
    crossSign b c p * a.2 + crossSign c a p * b.2 + crossSign a b p * c.2
      = crossSign a b c * p.2 := by
  unfold crossSign; ring

/-- With a positively wound quad (the two triangle areas sum positive) the
code's test "not (hasNeg and hasPos)" is equivalent to all four edge cross
products being nonnegative: all nonpositive is impossible since the four
values sum to twice the quad area. -/
lemma pointInQuad_true_iff_nonneg (p tl tr br bl : ℚ × ℚ)
    (hsum : 0 < crossSign tl tr br + crossSign br bl tl) :
    pointInQuad p tl tr br bl = true ↔
      0 ≤ crossSign tl tr p ∧ 0 ≤ crossSign tr br p ∧ 0 ≤ crossSign br bl p ∧
        0 ≤ crossSign bl tl p := by
  have hkey := crossSign_sum tl tr br bl p
  simp only [pointInQuad, Bool.not_eq_true', Bool.and_eq_false_iff, Bool.or_eq_false_iff,
    decide_eq_false_iff_not, not_lt]
  constructor
  · rintro (⟨⟨⟨h1, h2⟩, h3⟩, h4⟩ | ⟨⟨⟨h1, h2⟩, h3⟩, h4⟩)
    · exact ⟨h1, h2, h3, h4⟩
    · exfalso; linarith
  · intro ⟨h1, h2, h3, h4⟩
    exact Or.inl ⟨⟨⟨h1, h2⟩, h3⟩, h4⟩

lemma inClosedQuad_of_nonneg (p tl tr br bl : ℚ × ℚ)
    (hA : 0 < crossSign tl tr br) (hC : 0 < crossSign br bl tl)
    (h1 : 0 ≤ crossSign tl tr p) (h2 : 0 ≤ crossSign tr br p)
    (h3 : 0 ≤ crossSign br bl p) (h4 : 0 ≤ crossSign bl tl p) :
    inClosedQuad p tl tr br bl := by
  have hC0 : crossSign br bl tl ≠ 0 := ne_of_gt hC
  have hA0 : crossSign tl tr br ≠ 0 := ne_of_gt hA
  by_cases hdiag : 0 ≤ crossSign tl br p
  · -- p lies in the triangle tl, br, bl (barycentric coordinates over area C)
    have hT : crossSign tl br bl = crossSign br bl tl := crossSign_cyclic tl br bl
    have htri := crossSign_triangle_sum tl br bl p
    have hcx := crossSign_cramer_x tl br bl p
    have hcy := crossSign_cramer_y tl br bl p
    rw [hT] at htri hcx hcy
    refine ⟨crossSign br bl p / crossSign br bl tl, 0,
            crossSign bl tl p / crossSign br bl tl,
            crossSign tl br p / crossSign br bl tl,
            div_nonneg h3 hC.le, le_refl 0, div_nonneg h4 hC.le, div_nonneg hdiag hC.le,
            ?_, ?_, ?_⟩
    · field_simp
      linear_combination htri
    · field_simp
      linarith [hcx]
    · field_simp
      linarith [hcy]
  · -- p lies in the triangle tl, tr, br (barycentric coordinates over area A)
    have hswap : crossSign br tl p = -crossSign tl br p := crossSign_swap br tl p
    have hdiag' : 0 ≤ crossSign br tl p := by
      rw [hswap]
      linarith [not_le.mp hdiag]
    have htri := crossSign_triangle_sum tl tr br p
    have hcx := crossSign_cramer_x tl tr br p
    have hcy := crossSign_cramer_y tl tr br p
    refine ⟨crossSign tr br p / crossSign tl tr br, crossSign br tl p / crossSign tl tr br,
            crossSign tl tr p / crossSign tl tr br, 0,
            div_nonneg h2 hA.le, div_nonneg hdiag' hA.le, div_nonneg h1 hA.le, le_refl 0,
            ?_, ?_, ?_⟩
    · field_simp
      linear_combination htri
    · field_simp
      linarith [hcx]
    · field_simp
      linarith [hcy]

lemma nonneg_of_inClosedQuad (p tl tr br bl : ℚ × ℚ) (hc : convexCCW tl tr br bl)
    (h : inClosedQuad p tl tr br bl) :
    0 ≤ crossSign tl tr p ∧ 0 ≤ crossSign tr br p ∧ 0 ≤ crossSign br bl p ∧
      0 ≤ crossSign bl tl p := by
  obtain ⟨hA, hB, hC, hD⟩ := hc
  obtain ⟨w1, w2, w3, w4, hw1, hw2, hw3, hw4, hwsum, hx, hy⟩ := h
  have hw1e : w1 = 1 - w2 - w3 - w4 := by linarith
  have e1 : crossSign tl tr p = w3 * crossSign tl tr br + w4 * crossSign bl tl tr := by
    simp only [crossSign]
    rw [hx, hy, hw1e]
    ring
  have e2 : crossSign tr br p = w1 * crossSign tl tr br + w4 * crossSign tr br bl := by
    simp only [crossSign]
    rw [hx, hy, hw1e]
    ring
  have e3 : crossSign br bl p = w1 * crossSign br bl tl + w2 * crossSign tr br bl := by
    simp only [crossSign]
    rw [hx, hy, hw1e]
    ring
  have e4 : crossSign bl tl p = w2 * crossSign bl tl tr + w3 * crossSign br bl tl := by
    simp only [crossSign]
    rw [hx, hy, hw1e]
    ring
  refine ⟨?_, ?_, ?_, ?_⟩
  · rw [e1]
    have k1 := mul_nonneg hw3 hA.le
    have k2 := mul_nonneg hw4 hD.le
    linarith
  · rw [e2]
    have k1 := mul_nonneg hw1 hA.le
    have k2 := mul_nonneg hw4 hB.le
    linarith
  · rw [e3]
    have k1 := mul_nonneg hw1 hC.le
    have k2 := mul_nonneg hw2 hB.le
    linarith
  · rw [e4]
    have k1 := mul_nonneg hw2 hD.le
    have k2 := mul_nonneg hw3 hC.le
    linarith

lemma pointInQuad_ccw (p tl tr br bl : ℚ × ℚ) (hc : convexCCW tl tr br bl) :
    pointInQuad p tl tr br bl = true ↔ inClosedQuad p tl tr br bl := by
  obtain ⟨hA, hB, hC, hD⟩ := hc
  rw [pointInQuad_true_iff_nonneg p tl tr br bl (by linarith)]
  constructor
  · rintro ⟨h1, h2, h3, h4⟩
    exact inClosedQuad_of_nonneg p tl tr br bl hA hC h1 h2 h3 h4
  · intro h
    exact nonneg_of_inClosedQuad p tl tr br bl ⟨hA, hB, hC, hD⟩ h

lemma pointInQuad_reverse (p tl tr br bl : ℚ × ℚ) :
    pointInQuad p bl br tr tl = pointInQuad p tl tr br bl := by
  have e1 : crossSign bl br p = -crossSign br bl p := crossSign_swap bl br p
  have e2 : crossSign br tr p = -crossSign tr br p := crossSign_swap br tr p
  have e3 : crossSign tr tl p = -crossSign tl tr p := crossSign_swap tr tl p
  have e4 : crossSign tl bl p = -crossSign bl tl p := crossSign_swap tl bl p
  rw [Bool.eq_iff_iff]
  simp only [pointInQuad, Bool.not_eq_true', Bool.and_eq_false_iff, Bool.or_eq_false_iff,
    decide_eq_false_iff_not, not_lt, e1, e2, e3, e4, neg_nonneg, neg_nonpos]
  tauto

lemma inClosedQuad_reverse (p tl tr br bl : ℚ × ℚ) :
    inClosedQuad p bl br tr tl ↔ inClosedQuad p tl tr br bl := by
  constructor
  · rintro ⟨w1, w2, w3, w4, hw1, hw2, hw3, hw4, hwsum, hx, hy⟩
    exact ⟨w4, w3, w2, w1, hw4, hw3, hw2, hw1, by linarith, by linarith, by linarith⟩
  · rintro ⟨w1, w2, w3, w4, hw1, hw2, hw3, hw4, hwsum, hx, hy⟩
    exact ⟨w4, w3, w2, w1, hw4, hw3, hw2, hw1, by linarith, by linarith, by linarith⟩

/-- Claim C1: for a convex quadrilateral with corners tl, tr, br, bl given in
a consistent winding order (counter-clockwise, or clockwise so that the
reversed order is counter-clockwise) and any point p, pointInQuad returns
true exactly when p lies in the closed quadrilateral, i.e. is a convex
combination of the four corners. -/
theorem pointInQuad_iff_inClosedQuad (p tl tr br bl : ℚ × ℚ)
    (hwind : convexCCW tl tr br bl ∨ convexCCW bl br tr tl) :
    pointInQuad p tl tr br bl = true ↔ inClosedQuad p tl tr br bl := by
  rcases hwind with hccw | hcw
  · exact pointInQuad_ccw p tl tr br bl hccw
  · rw [← pointInQuad_reverse, ← inClosedQuad_reverse]
    exact pointInQuad_ccw p bl br tr tl hcw

theorem pointInQuad_iff_inClosedQuad_witness :
    (convexCCW (0, 0) (1, 0) (1, 1) (0, 1) ∨ convexCCW (0, 1) (1, 1) (1, 0) (0, 0)) ∧
    (pointInQuad (1/2, 1/2) (0, 0) (1, 0) (1, 1) (0, 1) = true ↔
      inClosedQuad (1/2, 1/2) (0, 0) (1, 0) (1, 1) (0, 1)) :=
  ⟨Or.inl (by norm_num [convexCCW, crossSign]),
    pointInQuad_iff_inClosedQuad (1/2, 1/2) (0, 0) (1, 0) (1, 1) (0, 1)
      (Or.inl (by norm_num [convexCCW, crossSign]))⟩

lemma glslModR_nonneg (x y : ℝ) (hy : 0 < y) : 0 ≤ glslModR x y := by
  rw [glslModR]
  have h := Int.floor_le (x / y)
  have h1 : y * ((⌊x / y⌋ : ℤ) : ℝ) ≤ y * (x / y) := by
    exact mul_le_mul_of_nonneg_left h hy.le
  have h2 : y * (x / y) = x := by
    field_simp
  linarith

lemma glslModR_lt (x y : ℝ) (hy : 0 < y) : glslModR x y < y := by
  rw [glslModR]
  have hf := Int.lt_floor_add_one (x / y)
  have h1 : x / y * y < (((⌊x / y⌋ : ℤ) : ℝ) + 1) * y := by
    exact (mul_lt_mul_right hy).mpr hf
  rw [div_mul_cancel₀ x (ne_of_gt hy)] at h1
  nlinarith

lemma kaleidoSegmentAngle_pos (segments : ℝ) (hseg : 2 < segments) :
    0 < kaleidoSegmentAngle segments := by
  rw [kaleidoSegmentAngle]
  apply div_pos (by norm_num) (by linarith)

lemma foldAngle_bounds (segments angle : ℝ) (hseg : 2 < segments) :
    0 ≤ foldAngle segments angle ∧
      foldAngle segments angle ≤ kaleidoSegmentAngle segments / 2 := by
  have hpos := kaleidoSegmentAngle_pos segments hseg
  have h0 := glslModR_nonneg angle _ hpos
  have h1 := glslModR_lt angle _ hpos
  simp only [foldAngle]
  by_cases hgt : glslModR angle (kaleidoSegmentAngle segments)
      > kaleidoSegmentAngle segments * 0.5
  · rw [if_pos hgt]
    constructor <;> nlinarith
  · rw [if_neg hgt]
    push_neg at hgt
    constructor <;> nlinarith

lemma foldAngle_fixed (segments a : ℝ) (hseg : 2 < segments) (h0 : 0 ≤ a)
    (h2 : a ≤ kaleidoSegmentAngle segments / 2) : foldAngle segments a = a := by
  have hpos := kaleidoSegmentAngle_pos segments hseg
  simp only [foldAngle]
  have hm : glslModR a (kaleidoSegmentAngle segments) = a := by
    rw [glslModR]
    have hz : ⌊a / kaleidoSegmentAngle segments⌋ = 0 := by
      apply Int.floor_eq_zero_iff.mpr
      constructor
      · exact div_nonneg h0 hpos.le
      · rw [div_lt_one hpos]
        linarith
    rw [hz]
    simp
  rw [hm, if_neg (by nlinarith)]

lemma kaleidoFold_radius (segments : ℝ) (v : ℝ × ℝ) :
    Real.sqrt ((kaleidoFold segments v).1 ^ 2 + (kaleidoFold segments v).2 ^ 2)
      = Real.sqrt (v.1 ^ 2 + v.2 ^ 2) := by
  simp only [kaleidoFold]
  have hr0 : 0 ≤ Real.sqrt (v.1 ^ 2 + v.2 ^ 2) := Real.sqrt_nonneg _
  have hpy := Real.sin_sq_add_cos_sq (foldAngle segments (Complex.arg ⟨v.1, v.2⟩))
  have h1 : (Real.cos (foldAngle segments (Complex.arg ⟨v.1, v.2⟩))
        * Real.sqrt (v.1 ^ 2 + v.2 ^ 2)) ^ 2 +
      (Real.sin (foldAngle segments (Complex.arg ⟨v.1, v.2⟩))
        * Real.sqrt (v.1 ^ 2 + v.2 ^ 2)) ^ 2
      = Real.sqrt (v.1 ^ 2 + v.2 ^ 2) ^ 2 := by
    linear_combination Real.sqrt (v.1 ^ 2 + v.2 ^ 2) ^ 2 * hpy
  rw [h1, Real.sqrt_sq hr0]

lemma arg_polar (a r : ℝ) (hr : 0 < r) (ha : a ∈ Set.Ioc (-Real.pi) Real.pi) :
    Complex.arg ⟨Real.cos a * r, Real.sin a * r⟩ = a := by
  have he : (⟨Real.cos a * r, Real.sin a * r⟩ : ℂ)
      = (r : ℂ) * (Complex.cos a + Complex.sin a * Complex.I) := by
    apply Complex.ext <;>
      simp [Complex.mul_re, Complex.mul_im, Complex.add_re, Complex.add_im,
        Complex.cos_ofReal_re, Complex.cos_ofReal_im, Complex.sin_ofReal_re,
        Complex.sin_ofReal_im, Complex.I_re, Complex.I_im, mul_comm]
  rw [he, Complex.arg_real_mul _ hr, Complex.arg_cos_add_sin_mul_I ha]

lemma kaleidoFold_idem (segments : ℝ) (hseg : 2 < segments) (v : ℝ × ℝ) :
    kaleidoFold segments (kaleidoFold segments v) = kaleidoFold segments v := by
  have hpos := kaleidoSegmentAngle_pos segments hseg
  obtain ⟨ha0, ha2⟩ := foldAngle_bounds segments (Complex.arg ⟨v.1, v.2⟩) hseg
  set a := foldAngle segments (Complex.arg ⟨v.1, v.2⟩) with hadef
  set r := Real.sqrt (v.1 ^ 2 + v.2 ^ 2) with hrdef
  have hr0 : 0 ≤ r := Real.sqrt_nonneg _
  have hhalf : kaleidoSegmentAngle segments / 2 < Real.pi := by
    have hp : (3.141592 : ℝ) < Real.pi := Real.pi_gt_d6
    have h1 : kaleidoSegmentAngle segments ≤ 3.14159265 := by
      rw [kaleidoSegmentAngle, div_le_iff₀ (by linarith)]
      nlinarith
    linarith
  have hfv : kaleidoFold segments v = (Real.cos a * r, Real.sin a * r) := rfl
  rw [hfv]
  rcases eq_or_lt_of_le hr0 with hr | hr
  · rw [← hr]
    simp only [mul_zero]
    have harg : Complex.arg ⟨(0 : ℝ), (0 : ℝ)⟩ = 0 := by
      have hz : (⟨(0 : ℝ), (0 : ℝ)⟩ : ℂ) = 0 := by
        apply Complex.ext <;> simp
      rw [hz, Complex.arg_zero]
    have hunf : kaleidoFold segments ((0 : ℝ), (0 : ℝ))
        = (Real.cos (foldAngle segments (Complex.arg ⟨(0 : ℝ), (0 : ℝ)⟩))
            * Real.sqrt ((0 : ℝ) ^ 2 + (0 : ℝ) ^ 2),
           Real.sin (foldAngle segments (Complex.arg ⟨(0 : ℝ), (0 : ℝ)⟩))
            * Real.sqrt ((0 : ℝ) ^ 2 + (0 : ℝ) ^ 2)) := rfl
    rw [hunf, harg]
    norm_num
  · have harg2 : Complex.arg ⟨Real.cos a * r, Real.sin a * r⟩ = a := by
      apply arg_polar a r hr
      constructor
      · have := Real.pi_pos
        linarith
      · linarith
    have hrad : Real.sqrt ((Real.cos a * r) ^ 2 + (Real.sin a * r) ^ 2) = r := by
      have hpy := Real.sin_sq_add_cos_sq a
      have h1 : (Real.cos a * r) ^ 2 + (Real.sin a * r) ^ 2 = r ^ 2 := by
        linear_combination r ^ 2 * hpy
      rw [h1, Real.sqrt_sq hr0]
    have hunf : kaleidoFold segments (Real.cos a * r, Real.sin a * r)
        = (Real.cos (foldAngle segments (Complex.arg ⟨Real.cos a * r, Real.sin a * r⟩))
            * Real.sqrt ((Real.cos a * r) ^ 2 + (Real.sin a * r) ^ 2),
           Real.sin (foldAngle segments (Complex.arg ⟨Real.cos a * r, Real.sin a * r⟩))
            * Real.sqrt ((Real.cos a * r) ^ 2 + (Real.sin a * r) ^ 2)) := rfl
    rw [hunf, harg2, hrad, foldAngle_fixed segments a hseg ha0 ha2]

/-- Claim C6: with the mirror active (u_mirror > 0.5) and u_mirrorSegments
greater than 2, the kaleidoscope remap preserves every point's distance from
the screen center, the folded angle always lies in [0, segmentAngle/2] for
segmentAngle = 2*3.14159265/u_mirrorSegments, and the fold is idempotent:
refolding an already-folded centered coordinate leaves it unchanged. -/
theorem kaleidoscope_spec (mirror segments split : ℝ)
    (hm : mirror > 0.5) (hseg : segments > 2) :
    (∀ center fragCoord : ℝ × ℝ,
      dist2 (mirrorBlock mirror segments split center fragCoord) center
        = dist2 fragCoord center) ∧
    (∀ angle : ℝ, 0 ≤ foldAngle segments angle ∧
      foldAngle segments angle ≤ kaleidoSegmentAngle segments / 2) ∧
    (∀ v : ℝ × ℝ, kaleidoFold segments (kaleidoFold segments v) = kaleidoFold segments v) := by
  refine ⟨fun center fragCoord => ?_, fun angle => foldAngle_bounds segments angle hseg,
    fun v => kaleidoFold_idem segments hseg v⟩
  have hblock : mirrorBlock mirror segments split center fragCoord
      = ((kaleidoFold segments (fragCoord.1 - center.1, fragCoord.2 - center.2)).1 + center.1,
         (kaleidoFold segments (fragCoord.1 - center.1, fragCoord.2 - center.2)).2 + center.2) := by
    rw [mirrorBlock, if_pos hm]
    simp only [if_pos hseg]
  rw [hblock, dist2, dist2]
  simp only [add_sub_cancel_right]
  exact kaleidoFold_radius segments (fragCoord.1 - center.1, fragCoord.2 - center.2)

theorem kaleidoscope_spec_witness :
    ((1 : ℝ) > 0.5 ∧ (4 : ℝ) > 2) ∧
    (∀ v : ℝ × ℝ, kaleidoFold 4 (kaleidoFold 4 v) = kaleidoFold 4 v) :=
  ⟨⟨by norm_num, by norm_num⟩,
    (kaleidoscope_spec 1 4 0 (by norm_num) (by norm_num)).2.2⟩

lemma rgbMin_le_rgbMax (c : ℚ × ℚ × ℚ) : rgbMin c ≤ rgbMax c := by
  rw [rgbMin, rgbMax]
  exact le_trans (le_trans (min_le_left _ _) (min_le_left _ _))
    (le_trans (le_max_left _ _) (le_max_left _ _))

lemma glslMod_two (x : ℚ) (k : ℤ) (h1 : 2 * (k : ℚ) ≤ x) (h2 : x < 2 * (k : ℚ) + 2) :
    glslMod x 2 = x - 2 * (k : ℚ) := by
  rw [glslMod]
  have hfl : ⌊x / 2⌋ = k := by
    rw [Int.floor_eq_iff]
    constructor
    · rw [le_div_iff₀ (by norm_num : (0:ℚ) < 2)]
      linarith
    · rw [div_lt_iff₀ (by norm_num : (0:ℚ) < 2)]
      linarith
  rw [hfl]

lemma hslChroma_eq_delta (c : ℚ × ℚ × ℚ) (h' : ℚ)
    (hmin0 : 0 ≤ rgbMin c) (hmax1 : rgbMax c ≤ 1) (hne : rgbMax c ≠ rgbMin c) :
    hslChroma (h', rgbSat c, rgbLum c) = rgbDelta c := by
  have hmm := rgbMin_le_rgbMax c
  have hlt : rgbMin c < rgbMax c := lt_of_le_of_ne hmm (fun h => hne h.symm)
  rw [hslChroma]
  show (1 - |2 * rgbLum c - 1|) * rgbSat c = rgbDelta c
  rw [rgbSat]
  by_cases hl : rgbLum c > 1 / 2
  · rw [if_pos hl]
    have habs : |2 * rgbLum c - 1| = 2 * rgbLum c - 1 := abs_of_nonneg (by linarith)
    have hden : 2 - rgbMax c - rgbMin c ≠ 0 := by
      intro h
      apply hne
      linarith
    rw [habs, rgbLum]
    field_simp
    ring
  · rw [if_neg hl]
    push_neg at hl
    have habs : |2 * rgbLum c - 1| = -(2 * rgbLum c - 1) := abs_of_nonpos (by linarith)
    have hden : rgbMax c + rgbMin c ≠ 0 := by
      intro h
      apply hne
      have h1 : 0 ≤ rgbMax c := le_trans hmin0 hmm
      linarith
    rw [habs, rgbLum]
    field_simp

lemma hslM_eq_min (c : ℚ × ℚ × ℚ) (h' : ℚ)
    (hmin0 : 0 ≤ rgbMin c) (hmax1 : rgbMax c ≤ 1) (hne : rgbMax c ≠ rgbMin c) :
    hslM (h', rgbSat c, rgbLum c) = rgbMin c := by
  rw [hslM]
  show rgbLum c - hslChroma (h', rgbSat c, rgbLum c) / 2 = rgbMin c
  rw [hslChroma_eq_delta c h' hmin0 hmax1 hne, rgbLum, rgbDelta]
  ring

lemma hslX_eval (c : ℚ × ℚ × ℚ) (k : ℤ)
    (hmin0 : 0 ≤ rgbMin c) (hmax1 : rgbMax c ≤ 1) (hne : rgbMax c ≠ rgbMin c)
    (h1 : 2 * (k : ℚ) ≤ rgbHue6 c) (h2 : rgbHue6 c < 2 * (k : ℚ) + 2) :
    hslX (rgbHue6 c / 6, rgbSat c, rgbLum c)
      = rgbDelta c * (1 - |rgbHue6 c - 2 * (k : ℚ) - 1|) := by
  rw [hslX]
  show hslChroma (rgbHue6 c / 6, rgbSat c, rgbLum c)
      * (1 - |glslMod (rgbHue6 c / 6 * 6) 2 - 1|) = _
  rw [div_mul_cancel₀ _ (by norm_num : (6 : ℚ) ≠ 0), glslMod_two _ k h1 h2,
    hslChroma_eq_delta c _ hmin0 hmax1 hne]

lemma glslMod_two_0 (x : ℚ) (h1 : 0 ≤ x) (h2 : x < 2) : glslMod x 2 = x := by
  have h := glslMod_two x 0 (by push_cast; linarith) (by push_cast; linarith)
  simpa using h

lemma glslMod_two_1 (x : ℚ) (h1 : 2 ≤ x) (h2 : x < 4) : glslMod x 2 = x - 2 := by
  have h := glslMod_two x 1 (by push_cast; linarith) (by push_cast; linarith)
  simpa using h

lemma glslMod_two_2 (x : ℚ) (h1 : 4 ≤ x) (h2 : x < 6) : glslMod x 2 = x - 4 := by
  have h := glslMod_two x 2 (by push_cast; linarith) (by push_cast; linarith)
  rw [h]
  norm_num

set_option maxHeartbeats 1000000 in
/-- Claim C2: over exact arithmetic, the shader's HSL color grading
conversions round-trip on every RGB color with components in [0,1]:
hsl2rgb (rgb2hsl c) = c. -/
theorem hsl_roundtrip (r g b : ℚ) (hr0 : 0 ≤ r) (hr1 : r ≤ 1) (hg0 : 0 ≤ g) (hg1 : g ≤ 1)
    (hb0 : 0 ≤ b) (hb1 : b ≤ 1) :
    hsl2rgb (rgb2hsl (r, g, b)) = (r, g, b) := by
  have hmax1 : rgbMax (r, g, b) ≤ 1 := max_le (max_le hr1 hg1) hb1
  have hmin0 : 0 ≤ rgbMin (r, g, b) := le_min (le_min hr0 hg0) hb0
  have hrM : r ≤ rgbMax (r, g, b) := le_trans (le_max_left r g) (le_max_left _ _)
  have hgM : g ≤ rgbMax (r, g, b) := le_trans (le_max_right r g) (le_max_left _ _)
  have hbM : b ≤ rgbMax (r, g, b) := le_max_right _ _
  have hmr : rgbMin (r, g, b) ≤ r := le_trans (min_le_left _ _) (min_le_left _ _)
  have hmg : rgbMin (r, g, b) ≤ g := le_trans (min_le_left _ _) (min_le_right _ _)
  have hmb : rgbMin (r, g, b) ≤ b := min_le_right _ _
  have hdelta : rgbDelta (r, g, b) = rgbMax (r, g, b) - rgbMin (r, g, b) := rfl
  have hlum : rgbLum (r, g, b) = (rgbMax (r, g, b) + rgbMin (r, g, b)) / 2 := rfl
  by_cases heq : rgbMax (r, g, b) = rgbMin (r, g, b)
  · -- maxc == minc: achromatic, r = g = b
    have hre : r = rgbMax (r, g, b) := le_antisymm hrM (by rw [heq]; exact hmr)
    have hge : g = rgbMax (r, g, b) := le_antisymm hgM (by rw [heq]; exact hmg)
    have hbe : b = rgbMax (r, g, b) := le_antisymm hbM (by rw [heq]; exact hmb)
    rw [rgb2hsl, if_pos heq]
    simp only [hsl2rgb]
    rw [if_pos (by norm_num : (0 : ℚ) < 1 / 6)]
    have hch : hslChroma (0, 0, rgbLum (r, g, b)) = 0 := mul_zero _
    have hx : hslX (0, 0, rgbLum (r, g, b)) = 0 := by
      simp only [hslX, hch, zero_mul]
    have hm : hslM (0, 0, rgbLum (r, g, b)) = rgbLum (r, g, b) := by
      simp only [hslM, hch]
      ring
    rw [hch, hx, hm]
    simp only [Prod.mk.injEq, zero_add]
    refine ⟨by linarith, by linarith, by linarith⟩
  · -- chromatic case
    have hlt : rgbMin (r, g, b) < rgbMax (r, g, b) :=
      lt_of_le_of_ne (rgbMin_le_rgbMax _) (fun h => heq h.symm)
    have hd : 0 < rgbDelta (r, g, b) := by linarith
    have hd0 : rgbDelta (r, g, b) ≠ 0 := ne_of_gt hd
    rw [rgb2hsl, if_neg heq]
    by_cases hrmax : r = rgbMax (r, g, b)
    · by_cases hgb : g < b
      · -- r is max and g < b: hue sector [5, 6)
        have hming : rgbMin (r, g, b) = g := by
          show min (min r g) b = g
          rw [min_eq_right (show g ≤ r by linarith), min_eq_left (le_of_lt hgb)]
        have hH : rgbHue6 (r, g, b) = (g - b) / rgbDelta (r, g, b) + 6 := by
          rw [rgbHue6, if_pos hrmax, if_pos hgb]
        have hH5 : 5 ≤ rgbHue6 (r, g, b) := by
          rw [hH]
          have hq : -1 ≤ (g - b) / rgbDelta (r, g, b) := by
            rw [le_div_iff₀ hd]
            linarith
          linarith
        have hH6 : rgbHue6 (r, g, b) < 6 := by
          rw [hH]
          have hq : (g - b) / rgbDelta (r, g, b) < 0 :=
            div_neg_of_neg_of_pos (by linarith) hd
          linarith
        have hxv : hslX (rgbHue6 (r, g, b) / 6, rgbSat (r, g, b), rgbLum (r, g, b))
            = b - g := by
          have hmod := glslMod_two_2 _ (by linarith) hH6
          have habs : |rgbHue6 (r, g, b) - 4 - 1| = rgbHue6 (r, g, b) - 4 - 1 :=
            abs_of_nonneg (by linarith)
          simp only [hslX]
          rw [div_mul_cancel₀ _ (by norm_num : (6 : ℚ) ≠ 0), hmod, habs,
            hslChroma_eq_delta (r, g, b) _ hmin0 hmax1 heq, hH]
          field_simp
          ring
        simp only [hsl2rgb]
        rw [if_neg (show ¬(rgbHue6 (r, g, b) / 6 < 1 / 6) by rw [not_lt]; linarith),
          if_neg (show ¬(rgbHue6 (r, g, b) / 6 < 2 / 6) by rw [not_lt]; linarith),
          if_neg (show ¬(rgbHue6 (r, g, b) / 6 < 3 / 6) by rw [not_lt]; linarith),
          if_neg (show ¬(rgbHue6 (r, g, b) / 6 < 4 / 6) by rw [not_lt]; linarith),
          if_neg (show ¬(rgbHue6 (r, g, b) / 6 < 5 / 6) by rw [not_lt]; linarith)]
        rw [hslChroma_eq_delta (r, g, b) _ hmin0 hmax1 heq, hxv,
          hslM_eq_min (r, g, b) _ hmin0 hmax1 heq]
        simp only [Prod.mk.injEq, zero_add]
        refine ⟨by linarith, by linarith, by linarith⟩
      · -- r is max and g >= b: hue sector [0, 1]
        have hgb' : b ≤ g := not_lt.mp hgb
        have hminb : rgbMin (r, g, b) = b := by
          show min (min r g) b = b
          exact min_eq_right (le_min (by linarith) hgb')
        have hH : rgbHue6 (r, g, b) = (g - b) / rgbDelta (r, g, b) := by
          rw [rgbHue6, if_pos hrmax, if_neg hgb]
          ring
        have hH0 : 0 ≤ rgbHue6 (r, g, b) := by
          rw [hH]
          exact div_nonneg (by linarith) hd.le
        have hH1 : rgbHue6 (r, g, b) ≤ 1 := by
          rw [hH, div_le_one hd]
          linarith
        by_cases hc1 : rgbHue6 (r, g, b) / 6 < 1 / 6
        · have hxv : hslX (rgbHue6 (r, g, b) / 6, rgbSat (r, g, b), rgbLum (r, g, b))
              = g - b := by
            have hmod := glslMod_two_0 _ hH0 (by linarith)
            have habs : |rgbHue6 (r, g, b) - 1| = -(rgbHue6 (r, g, b) - 1) :=
              abs_of_nonpos (by linarith)
            simp only [hslX]
            rw [div_mul_cancel₀ _ (by norm_num : (6 : ℚ) ≠ 0), hmod, habs,
              hslChroma_eq_delta (r, g, b) _ hmin0 hmax1 heq, hH]
            field_simp
          simp only [hsl2rgb]
          rw [if_pos hc1]
          rw [hslChroma_eq_delta (r, g, b) _ hmin0 hmax1 heq, hxv,
            hslM_eq_min (r, g, b) _ hmin0 hmax1 heq]
          simp only [Prod.mk.injEq, zero_add]
          refine ⟨by linarith, by linarith, by linarith⟩
        · -- boundary: hue exactly 1
          have hH1e : rgbHue6 (r, g, b) = 1 := by
            have hq : (1 : ℚ) / 6 ≤ rgbHue6 (r, g, b) / 6 := not_lt.mp hc1
            linarith
          have hgb_eq : g - b = rgbDelta (r, g, b) := by
            have hq := hH
            rw [hH1e] at hq
            field_simp at hq
            linarith
          have hxv : hslX (rgbHue6 (r, g, b) / 6, rgbSat (r, g, b), rgbLum (r, g, b))
              = rgbDelta (r, g, b) := by
            simp only [hslX]
            rw [div_mul_cancel₀ _ (by norm_num : (6 : ℚ) ≠ 0), hH1e,
              glslMod_two_0 1 (by norm_num) (by norm_num),
              hslChroma_eq_delta (r, g, b) _ hmin0 hmax1 heq]
            norm_num
          simp only [hsl2rgb]
          rw [if_neg hc1,
            if_pos (show rgbHue6 (r, g, b) / 6 < 2 / 6 by rw [hH1e]; norm_num)]
          rw [hslChroma_eq_delta (r, g, b) _ hmin0 hmax1 heq, hxv,
            hslM_eq_min (r, g, b) _ hmin0 hmax1 heq]
          simp only [Prod.mk.injEq, zero_add]
          refine ⟨by linarith, by linarith, by linarith⟩
    · by_cases hgmax : g = rgbMax (r, g, b)
      · -- g is max: hue sector [1, 3]
        have hrlt : r < rgbMax (r, g, b) := lt_of_le_of_ne hrM hrmax
        have hH : rgbHue6 (r, g, b) = (b - r) / rgbDelta (r, g, b) + 2 := by
          rw [rgbHue6, if_neg hrmax, if_pos hgmax]
        have hH1 : 1 ≤ rgbHue6 (r, g, b) := by
          rw [hH]
          have hq : -1 ≤ (b - r) / rgbDelta (r, g, b) := by
            rw [le_div_iff₀ hd]
            linarith
          linarith
        have hH3 : rgbHue6 (r, g, b) ≤ 3 := by
          rw [hH]
          have hq : (b - r) / rgbDelta (r, g, b) ≤ 1 := by
            rw [div_le_one hd]
            linarith
          linarith
        by_cases hc2 : rgbHue6 (r, g, b) / 6 < 2 / 6
        · -- hue in [1, 2): b < r
          have hH2lt : rgbHue6 (r, g, b) < 2 := by linarith
          have hbr : b < r := by
            by_contra hbr'
            push_neg at hbr'
            have hx0 : 0 ≤ (b - r) / rgbDelta (r, g, b) := div_nonneg (by linarith) hd.le
            rw [hH] at hH2lt
            linarith
          have hminb : rgbMin (r, g, b) = b := by
            show min (min r g) b = b
            rw [min_eq_left (by linarith : r ≤ g)]
            exact min_eq_right (le_of_lt hbr)
          have hxv : hslX (rgbHue6 (r, g, b) / 6, rgbSat (r, g, b), rgbLum (r, g, b))
              = r - b := by
            have hmod := glslMod_two_0 _ (by linarith : (0 : ℚ) ≤ rgbHue6 (r, g, b)) hH2lt
            have habs : |rgbHue6 (r, g, b) - 1| = rgbHue6 (r, g, b) - 1 :=
              abs_of_nonneg (by linarith)
            simp only [hslX]
            rw [div_mul_cancel₀ _ (by norm_num : (6 : ℚ) ≠ 0), hmod, habs,
              hslChroma_eq_delta (r, g, b) _ hmin0 hmax1 heq, hH]
            field_simp
            ring
          simp only [hsl2rgb]
          rw [if_neg (show ¬(rgbHue6 (r, g, b) / 6 < 1 / 6) by rw [not_lt]; linarith),
            if_pos hc2]
          rw [hslChroma_eq_delta (r, g, b) _ hmin0 hmax1 heq, hxv,
            hslM_eq_min (r, g, b) _ hmin0 hmax1 heq]
          simp only [Prod.mk.injEq, zero_add]
          refine ⟨by linarith, by linarith, by linarith⟩
        · by_cases hc3 : rgbHue6 (r, g, b) / 6 < 3 / 6
          · -- hue in [2, 3): r <= b
            have hH2 : 2 ≤ rgbHue6 (r, g, b) := by linarith [not_lt.mp hc2]
            have hH3lt : rgbHue6 (r, g, b) < 3 := by linarith
            have hlin : rgbHue6 (r, g, b) * rgbDelta (r, g, b)
                = b - r + 2 * rgbDelta (r, g, b) := by
              rw [hH]
              field_simp
            have hrb : r ≤ b := by
              nlinarith [mul_nonneg (show (0 : ℚ) ≤ rgbHue6 (r, g, b) - 2 by linarith) hd.le]
            have hminr : rgbMin (r, g, b) = r := by
              show min (min r g) b = r
              rw [min_eq_left (by linarith : r ≤ g)]
              exact min_eq_left hrb
            have hxv : hslX (rgbHue6 (r, g, b) / 6, rgbSat (r, g, b), rgbLum (r, g, b))
                = b - r := by
              have hmod := glslMod_two_1 _ hH2 (by linarith)
              have habs : |rgbHue6 (r, g, b) - 2 - 1| = -(rgbHue6 (r, g, b) - 2 - 1) :=
                abs_of_nonpos (by linarith)
              simp only [hslX]
              rw [div_mul_cancel₀ _ (by norm_num : (6 : ℚ) ≠ 0), hmod, habs,
                hslChroma_eq_delta (r, g, b) _ hmin0 hmax1 heq, hH]
              field_simp
              ring
            simp only [hsl2rgb]
            rw [if_neg (show ¬(rgbHue6 (r, g, b) / 6 < 1 / 6) by rw [not_lt]; linarith),
              if_neg hc2, if_pos hc3]
            rw [hslChroma_eq_delta (r, g, b) _ hmin0 hmax1 heq, hxv,
              hslM_eq_min (r, g, b) _ hmin0 hmax1 heq]
            simp only [Prod.mk.injEq, zero_add]
            refine ⟨by linarith, by linarith, by linarith⟩
          · -- boundary: hue exactly 3
            have hH3e : rgbHue6 (r, g, b) = 3 := by
              have hq : (3 : ℚ) / 6 ≤ rgbHue6 (r, g, b) / 6 := not_lt.mp hc3
              linarith
            have hbre : b - r = rgbDelta (r, g, b) := by
              have hq : (b - r) / rgbDelta (r, g, b) = 1 := by
                rw [hH] at hH3e
                linarith
              field_simp at hq
              linarith
            have hminr : rgbMin (r, g, b) = r := by
              show min (min r g) b = r
              rw [min_eq_left (by linarith : r ≤ g)]
              exact min_eq_left (by linarith)
            have hxv : hslX (rgbHue6 (r, g, b) / 6, rgbSat (r, g, b), rgbLum (r, g, b))
                = rgbDelta (r, g, b) := by
              simp only [hslX]
              rw [div_mul_cancel₀ _ (by norm_num : (6 : ℚ) ≠ 0), hH3e,
                glslMod_two_1 3 (by norm_num) (by norm_num),
                hslChroma_eq_delta (r, g, b) _ hmin0 hmax1 heq]
              norm_num
            simp only [hsl2rgb]
            rw [if_neg (show ¬(rgbHue6 (r, g, b) / 6 < 1 / 6) by rw [not_lt]; linarith),
              if_neg hc2, if_neg hc3,
              if_pos (show rgbHue6 (r, g, b) / 6 < 4 / 6 by rw [hH3e]; norm_num)]
            rw [hslChroma_eq_delta (r, g, b) _ hmin0 hmax1 heq, hxv,
              hslM_eq_min (r, g, b) _ hmin0 hmax1 heq]
            simp only [Prod.mk.injEq, zero_add]
            refine ⟨by linarith, by linarith, by linarith⟩
      · -- b is max: hue sector (3, 5)
        have hbmax : b = rgbMax (r, g, b) := by
          rcases max_choice (max r g) b with h | h
          · exfalso
            rcases max_choice r g with h2 | h2
            · apply hrmax
              have hq : rgbMax (r, g, b) = r := by
                show max (max r g) b = r
                rw [h, h2]
              exact hq.symm
            · apply hgmax
              have hq : rgbMax (r, g, b) = g := by
                show max (max r g) b = g
                rw [h, h2]
              exact hq.symm
          · exact (show max (max r g) b = b from h).symm
        have hrltb : r < rgbMax (r, g, b) := lt_of_le_of_ne hrM hrmax
        have hgltb : g < rgbMax (r, g, b) := lt_of_le_of_ne hgM hgmax
        have hH : rgbHue6 (r, g, b) = (r - g) / rgbDelta (r, g, b) + 4 := by
          rw [rgbHue6, if_neg hrmax, if_neg hgmax]
        have hH3lt : 3 < rgbHue6 (r, g, b) := by
          rw [hH]
          have hq : -1 < (r - g) / rgbDelta (r, g, b) := by
            rw [lt_div_iff₀ hd]
            linarith
          linarith
        have hH5lt : rgbHue6 (r, g, b) < 5 := by
          rw [hH]
          have hq : (r - g) / rgbDelta (r, g, b) < 1 := by
            rw [div_lt_one hd]
            linarith
          linarith
        by_cases hc4 : rgbHue6 (r, g, b) / 6 < 4 / 6
        · -- hue in (3, 4): r < g
          have hH4lt : rgbHue6 (r, g, b) < 4 := by linarith
          have hrg : r < g := by
            by_contra hrg'
            push_neg at hrg'
            have hx0 : 0 ≤ (r - g) / rgbDelta (r, g, b) := div_nonneg (by linarith) hd.le
            rw [hH] at hH4lt
            linarith
          have hminr : rgbMin (r, g, b) = r := by
            show min (min r g) b = r
            rw [min_eq_left (le_of_lt hrg)]
            exact min_eq_left (by linarith)
          have hxv : hslX (rgbHue6 (r, g, b) / 6, rgbSat (r, g, b), rgbLum (r, g, b))
              = g - r := by
            have hmod := glslMod_two_1 _ (by linarith) hH4lt
            have habs : |rgbHue6 (r, g, b) - 2 - 1| = rgbHue6 (r, g, b) - 2 - 1 :=
              abs_of_nonneg (by linarith)
            simp only [hslX]
            rw [div_mul_cancel₀ _ (by norm_num : (6 : ℚ) ≠ 0), hmod, habs,
              hslChroma_eq_delta (r, g, b) _ hmin0 hmax1 heq, hH]
            field_simp
            ring
          simp only [hsl2rgb]
          rw [if_neg (show ¬(rgbHue6 (r, g, b) / 6 < 1 / 6) by rw [not_lt]; linarith),
            if_neg (show ¬(rgbHue6 (r, g, b) / 6 < 2 / 6) by rw [not_lt]; linarith),
            if_neg (show ¬(rgbHue6 (r, g, b) / 6 < 3 / 6) by rw [not_lt]; linarith),
            if_pos hc4]
          rw [hslChroma_eq_delta (r, g, b) _ hmin0 hmax1 heq, hxv,
            hslM_eq_min (r, g, b) _ hmin0 hmax1 heq]
          simp only [Prod.mk.injEq, zero_add]
          refine ⟨by linarith, by linarith, by linarith⟩
        · -- hue in [4, 5): g <= r
          have hH4 : 4 ≤ rgbHue6 (r, g, b) := by linarith [not_lt.mp hc4]
          have hlin : rgbHue6 (r, g, b) * rgbDelta (r, g, b)
              = r - g + 4 * rgbDelta (r, g, b) := by
            rw [hH]
            field_simp
          have hgr : g ≤ r := by
            nlinarith [mul_nonneg (show (0 : ℚ) ≤ rgbHue6 (r, g, b) - 4 by linarith) hd.le]
          have hming : rgbMin (r, g, b) = g := by
            show min (min r g) b = g
            rw [min_eq_right hgr]
            exact min_eq_left (by linarith)
          have hxv : hslX (rgbHue6 (r, g, b) / 6, rgbSat (r, g, b), rgbLum (r, g, b))
              = r - g := by
            have hmod := glslMod_two_2 _ hH4 (by linarith)
            have habs : |rgbHue6 (r, g, b) - 4 - 1| = -(rgbHue6 (r, g, b) - 4 - 1) :=
              abs_of_nonpos (by linarith)
            simp only [hslX]
            rw [div_mul_cancel₀ _ (by norm_num : (6 : ℚ) ≠ 0), hmod, habs,
              hslChroma_eq_delta (r, g, b) _ hmin0 hmax1 heq, hH]
            field_simp
            ring
          simp only [hsl2rgb]
          rw [if_neg (show ¬(rgbHue6 (r, g, b) / 6 < 1 / 6) by rw [not_lt]; linarith),
            if_neg (show ¬(rgbHue6 (r, g, b) / 6 < 2 / 6) by rw [not_lt]; linarith),
            if_neg (show ¬(rgbHue6 (r, g, b) / 6 < 3 / 6) by rw [not_lt]; linarith),
            if_neg hc4,
            if_pos (show rgbHue6 (r, g, b) / 6 < 5 / 6 by linarith)]
          rw [hslChroma_eq_delta (r, g, b) _ hmin0 hmax1 heq, hxv,
            hslM_eq_min (r, g, b) _ hmin0 hmax1 heq]
          simp only [Prod.mk.injEq, zero_add]
          refine ⟨by linarith, by linarith, by linarith⟩

theorem hsl_roundtrip_witness :
    ((0 : ℚ) ≤ 1/2 ∧ (1/2 : ℚ) ≤ 1 ∧ (0 : ℚ) ≤ 1/3 ∧ (1/3 : ℚ) ≤ 1 ∧
      (0 : ℚ) ≤ 3/4 ∧ (3/4 : ℚ) ≤ 1) ∧
    hsl2rgb (rgb2hsl (1/2, 1/3, 3/4)) = (1/2, 1/3, 3/4) :=
  ⟨⟨by norm_num, by norm_num, by norm_num, by norm_num, by norm_num, by norm_num⟩,
    hsl_roundtrip (1/2) (1/3) (3/4) (by norm_num) (by norm_num) (by norm_num)
      (by norm_num) (by norm_num) (by norm_num)⟩
